import Mathlib

/-!
Verification of the MOPAC "Plan on a page" dashboard
(src/MOPAC-G1-Dashboard.py) against its specification.

The program keeps two session-scoped tables (a resource-allocation table
and a deliverables table), renders each of two phase windows as an
editable grid, reconciles accepted edits back into the tables, and
recomputes aggregate statistics on every render.  Below, the data model
and every operation the claims touch are embedded shallowly:

* months are the label strings produced by `strftime "%b '%y"`;
* the allocation table is a record of metadata columns plus a cell map
  `row index → column label → Option Int` (a `none` cell models a
  missing/NaN entry, which pandas aggregation skips);
* reconciliation embeds `resource_df.update(edited_df[cols])`:
  only columns in `cols` may change, and a `none` (NaN) edited cell
  leaves the stored value alone;
* the aggregates embed `df_view[cols].sum(axis=1)` (the "Phase Total"
  column), `resource_df[cols].sum()` (per-month totals), `totals.sum()`,
  `totals.idxmax()` (first index of the maximum), `totals.max()`, and
  the grand total `resource_df[all_months].sum().sum()`.
-/

/-! ## Calendar generator (`get_month_columns`, lines 25-36) -/

/-- The month abbreviations produced by `strftime "%b"` for months 1..12. -/
def monthAbbrev (m : Nat) : String :=
  ["Jan", "Feb", "Mar", "Apr", "May", "Jun",
   "Jul", "Aug", "Sep", "Oct", "Nov", "Dec"].getD (m - 1) ""

/-- Zero-padded two-digit rendering of `n < 100`, as `strftime "%y"` does
for the year modulo 100. -/
def twoDigit (n : Nat) : String :=
  if n < 10 then "0" ++ toString n else toString n

/-- `current_date.strftime("%b '%y")`: the label of month `m` of year `y`,
e.g. `monthKey 2025 7 = "Jul '25"`. -/
def monthKey (y m : Nat) : String :=
  monthAbbrev m ++ " '" ++ twoDigit (y % 100)

/-- The next-month step of the loop body (lines 31-35): December rolls
over to January of the next year, otherwise the month is incremented. -/
def nextMonth (d : Nat × Nat) : Nat × Nat :=
  if d.2 = 12 then (d.1 + 1, 1) else (d.1, d.2 + 1)

/-- The sequence of `(year, month)` dates the loop of `get_month_columns`
iterates through, starting at `d` and taking `count` steps. -/
def month_dates : Nat × Nat → Nat → List (Nat × Nat)
  | _, 0 => []
  | d, n + 1 => d :: month_dates (nextMonth d) n

/-- `get_month_columns(start_year, start_month, months_count)`: one label
per generated date, in generation order. -/
def get_month_columns (start_year start_month months_count : Nat) : List String :=
  (month_dates (start_year, start_month) months_count).map fun d => monthKey d.1 d.2

/-- `all_months = get_month_columns()` with the source defaults
(2025, July, 25 months) — line 40. -/
def all_months : List String := get_month_columns 2025 7 25

/-- `phase1_cols = all_months[:12]` — line 41. -/
def phase1_cols : List String := all_months.take 12

/-- `phase2_cols = all_months[12:]` — line 42. -/
def phase2_cols : List String := all_months.drop 12

/-- The phase split as an operation on an arbitrary horizon: Python list
slicing `months[:k]`, `months[k:]`.  The source performs no validation of
the split point; slicing is total. -/
def splitPhases (months : List String) (k : Nat) : List String × List String :=
  (months.take k, months.drop k)

/-- A date is valid when its month field lies in 1..12. -/
def validDate (d : Nat × Nat) : Prop := 1 ≤ d.2 ∧ d.2 ≤ 12

/-- Linear month index: `midx (y, m) = 12 * y + m`; consecutive calendar
months have consecutive indices. -/
def midx (d : Nat × Nat) : Nat := 12 * d.1 + d.2

theorem nextMonth_valid {d : Nat × Nat} (h : validDate d) : validDate (nextMonth d) := by
  obtain ⟨h1, h2⟩ := h
  unfold nextMonth validDate
  split
  · simp
  · simp only []
    omega

theorem midx_nextMonth {d : Nat × Nat} (h : validDate d) :
    midx (nextMonth d) = midx d + 1 := by
  obtain ⟨h1, h2⟩ := h
  unfold nextMonth midx
  split
  · simp_all
    omega
  · simp_all
    omega

theorem month_dates_length (d : Nat × Nat) (c : Nat) :
    (month_dates d c).length = c := by
  induction c generalizing d with
  | zero => rfl
  | succ n ih => simp [month_dates, ih]

theorem get_month_columns_length (sy sm c : Nat) :
    (get_month_columns sy sm c).length = c := by
  simp [get_month_columns, month_dates_length]

/-- The `k`-th generated date has linear index `midx d + k` and is valid. -/
theorem month_dates_get? {d : Nat × Nat} (hd : validDate d) {c k : Nat} {e : Nat × Nat}
    (h : (month_dates d c).get? k = some e) :
    midx e = midx d + k ∧ validDate e := by
  induction c generalizing d k with
  | zero => simp [month_dates] at h
  | succ n ih =>
    cases k with
    | zero =>
      simp [month_dates] at h
      subst h; exact ⟨rfl, hd⟩
    | succ k =>
      simp only [month_dates, List.get?_cons_succ] at h
      obtain ⟨h1, h2⟩ := ih (nextMonth_valid hd) h
      refine ⟨?_, h2⟩
      rw [h1, midx_nextMonth hd]
      omega

/-- Consecutiveness: each generated date is followed by exactly the next
calendar month. -/
theorem month_dates_consecutive {d : Nat × Nat} {c k : Nat} (h : k + 1 < c) :
    (month_dates d c).get? (k + 1) = ((month_dates d c).get? k).map nextMonth := by
  induction c generalizing d k with
  | zero => omega
  | succ n ih =>
    cases k with
    | zero =>
      cases n with
      | zero => omega
      | succ m => simp [month_dates]
    | succ k =>
      simp only [month_dates, List.get?_cons_succ]
      exact ih (by omega)

/-! ### Injectivity of the month labels

A label determines the month and the last two digits of the year; two
labels generated less than 1200 months (100 years) apart therefore
cannot collide. -/

set_option maxHeartbeats 1000000 in
set_option maxRecDepth 10000 in
theorem twoDigit_inj : ∀ a < 100, ∀ b < 100, twoDigit a = twoDigit b → a = b := by decide

theorem monthAbbrev_inj : ∀ m < 13, ∀ n < 13, 1 ≤ m → 1 ≤ n →
    monthAbbrev m = monthAbbrev n → m = n := by decide

theorem monthAbbrev_len : ∀ m < 13, 1 ≤ m → (monthAbbrev m).data.length = 3 := by decide

theorem monthKey_parts_eq {y1 m1 y2 m2 : Nat}
    (hm1 : 1 ≤ m1) (hm1b : m1 ≤ 12) (hm2 : 1 ≤ m2) (hm2b : m2 ≤ 12)
    (h : monthKey y1 m1 = monthKey y2 m2) :
    monthAbbrev m1 = monthAbbrev m2 ∧ twoDigit (y1 % 100) = twoDigit (y2 % 100) := by
  unfold monthKey at h
  have hd : ((monthAbbrev m1) ++ " '" ++ twoDigit (y1 % 100)).data
      = ((monthAbbrev m2) ++ " '" ++ twoDigit (y2 % 100)).data := by rw [h]
  simp only [String.data_append] at hd
  rw [List.append_assoc, List.append_assoc] at hd
  have hlen : (monthAbbrev m1).data.length = (monthAbbrev m2).data.length := by
    rw [monthAbbrev_len m1 (by omega) hm1, monthAbbrev_len m2 (by omega) hm2]
  obtain ⟨ha, hb⟩ := List.append_inj hd hlen
  exact ⟨String.ext ha, String.ext (List.append_cancel_left hb)⟩

theorem monthKey_inj {y1 m1 y2 m2 : Nat}
    (hm1 : 1 ≤ m1) (hm1b : m1 ≤ 12) (hm2 : 1 ≤ m2) (hm2b : m2 ≤ 12)
    (h : monthKey y1 m1 = monthKey y2 m2) : m1 = m2 ∧ y1 % 100 = y2 % 100 := by
  obtain ⟨ha, hb⟩ := monthKey_parts_eq hm1 hm1b hm2 hm2b h
  refine ⟨monthAbbrev_inj m1 (by omega) m2 (by omega) hm1 hm2 ha, ?_⟩
  exact twoDigit_inj (y1 % 100) (Nat.mod_lt _ (by omega)) (y2 % 100) (Nat.mod_lt _ (by omega)) hb

/-- Any horizon of at most 1200 months (100 years) has pairwise-distinct
labels: a collision would force the same month-of-year and the same year
modulo 100, i.e. a gap of at least 1200 months. -/
theorem get_month_columns_nodup (sy sm c : Nat) (h1 : 1 ≤ sm) (h2 : sm ≤ 12)
    (hc : c ≤ 1200) : (get_month_columns sy sm c).Nodup := by
  rw [List.nodup_iff_get?_ne_get?]
  intro i j hij hj hEq
  rw [get_month_columns, List.length_map, month_dates_length] at hj
  have hi : i < c := lt_trans hij hj
  unfold get_month_columns at hEq
  have hi2 : i < (month_dates (sy, sm) c).length := by rw [month_dates_length]; exact hi
  have hj2 : j < (month_dates (sy, sm) c).length := by rw [month_dates_length]; exact hj
  have hei : (month_dates (sy, sm) c).get? i
      = some ((month_dates (sy, sm) c).get ⟨i, hi2⟩) := List.get?_eq_get hi2
  have hej : (month_dates (sy, sm) c).get? j
      = some ((month_dates (sy, sm) c).get ⟨j, hj2⟩) := List.get?_eq_get hj2
  rw [List.get?_map, List.get?_map, hei, hej] at hEq
  simp only [Option.map_some', Option.some.injEq] at hEq
  obtain ⟨hmi, hvi⟩ := month_dates_get? ⟨h1, h2⟩ hei
  obtain ⟨hmj, hvj⟩ := month_dates_get? ⟨h1, h2⟩ hej
  obtain ⟨hmeq, hyeq⟩ := monthKey_inj hvi.1 hvi.2 hvj.1 hvj.2 hEq
  unfold midx at hmi hmj
  omega

/-- The label at position `k` of the generated horizon is the key of the
date at position `k`, whose linear index is `midx (sy, sm) + k`. -/
theorem get_month_columns_get? (sy sm c k : Nat)
    (hk : k < c) (hv : validDate (sy, sm)) :
    ∃ e : Nat × Nat, (month_dates (sy, sm) c).get? k = some e
      ∧ midx e = midx (sy, sm) + k ∧ validDate e
      ∧ (get_month_columns sy sm c).get? k = some (monthKey e.1 e.2) := by
  have hk2 : k < (month_dates (sy, sm) c).length := by rw [month_dates_length]; exact hk
  have he : (month_dates (sy, sm) c).get? k
      = some ((month_dates (sy, sm) c).get ⟨k, hk2⟩) := List.get?_eq_get hk2
  obtain ⟨hm, hv2⟩ := month_dates_get? hv he
  refine ⟨_, he, hm, hv2, ?_⟩
  unfold get_month_columns
  rw [List.get?_map, he]
  rfl

/-- C4 (amended): for every startYear, every startMonth in [1,12], and
every count with 0 < count ≤ 1200 (a horizon under 100 years, so the
two-digit year in the labels cannot wrap around), `get_month_columns`
returns exactly `count` pairwise-distinct MonthKey labels, one per date of
the generated chronological date sequence, where date N+1 is exactly one
calendar month after date N and December rolls over to January of the
next year.  (As stated over all `count > 0` the claim fails: see the
counterexample at `count = 1201`.) -/
theorem generateMonths_count_distinct_consecutive (sy sm c : Nat)
    (h1 : 1 ≤ sm) (h2 : sm ≤ 12) (_h3 : 0 < c) (h4 : c ≤ 1200) :
    (get_month_columns sy sm c).length = c
    ∧ (get_month_columns sy sm c).Nodup
    ∧ get_month_columns sy sm c
        = (month_dates (sy, sm) c).map (fun d => monthKey d.1 d.2)
    ∧ (∀ k, k + 1 < c →
        (month_dates (sy, sm) c).get? (k + 1)
          = ((month_dates (sy, sm) c).get? k).map nextMonth)
    ∧ (∀ y, nextMonth (y, 12) = (y + 1, 1)) :=
  ⟨get_month_columns_length sy sm c, get_month_columns_nodup sy sm c h1 h2 h4, rfl,
    fun _ hk => month_dates_consecutive hk, fun _ => rfl⟩

/-- Witness for C4 (amended) at the source defaults (2025, July, 25). -/
theorem generateMonths_count_distinct_consecutive_witness :
    (1 ≤ 7 ∧ 7 ≤ 12 ∧ 0 < 25 ∧ 25 ≤ 1200)
    ∧ ((get_month_columns 2025 7 25).length = 25
       ∧ (get_month_columns 2025 7 25).Nodup
       ∧ get_month_columns 2025 7 25
           = (month_dates (2025, 7) 25).map (fun d => monthKey d.1 d.2)
       ∧ (∀ k, k + 1 < 25 →
           (month_dates (2025, 7) 25).get? (k + 1)
             = ((month_dates (2025, 7) 25).get? k).map nextMonth)
       ∧ (∀ y, nextMonth (y, 12) = (y + 1, 1))) :=
  ⟨by norm_num, generateMonths_count_distinct_consecutive 2025 7 25
    (by norm_num) (by norm_num) (by norm_num) (by norm_num)⟩

/-- Counterexample to C4 as stated: at `count = 1201` (a valid start month
and a positive count) the generated labels are NOT pairwise distinct —
July 2025 and July 2125 both render as "Jul '25". -/
theorem generateMonths_labels_collide_after_1200 :
    (1 ≤ 7 ∧ 7 ≤ 12 ∧ 0 < 1201) ∧ ¬ (get_month_columns 2025 7 1201).Nodup := by
  refine ⟨by norm_num, fun hnd => ?_⟩
  obtain ⟨e0, he0, hm0, hv0, hl0⟩ :=
    get_month_columns_get? 2025 7 1201 0 (by norm_num) ⟨by norm_num, by norm_num⟩
  obtain ⟨e1, he1, hm1, hv1, hl1⟩ :=
    get_month_columns_get? 2025 7 1201 1200 (by norm_num) ⟨by norm_num, by norm_num⟩
  unfold midx at hm0 hm1
  unfold validDate at hv0 hv1
  have h01 : e0.1 = 2025 := by omega
  have h02 : e0.2 = 7 := by omega
  have h11 : e1.1 = 2125 := by omega
  have h12 : e1.2 = 7 := by omega
  rw [h01, h02] at hl0
  rw [h11, h12] at hl1
  have hkey : monthKey 2125 7 = monthKey 2025 7 := by decide
  have h2 : (get_month_columns 2025 7 1201).get? 0 = (get_month_columns 2025 7 1201).get? 1200 := by
    rw [hl0, hl1, hkey]
  have h0 : (0 : Nat) < (get_month_columns 2025 7 1201).length := by
    rw [get_month_columns_length]
    norm_num
  have h := List.get?_inj h0 hnd h2
  norm_num at h

/-! ## Phase split (`phase1_cols` / `phase2_cols`, lines 40-42)

The source splits the horizon by plain list slicing; there is no
validation of the split point anywhere in the program. -/

/-- C6: for every horizon produced by `get_month_columns` and every valid
split point `k` (0 < k < length), the two phase windows concatenate back
to the input sequence and the first window has length exactly `k`. -/
theorem splitPhases_append_eq_length (sy sm c k : Nat) (_hk1 : 0 < k) (hk2 : k < c) :
    (splitPhases (get_month_columns sy sm c) k).1
        ++ (splitPhases (get_month_columns sy sm c) k).2
      = get_month_columns sy sm c
    ∧ (splitPhases (get_month_columns sy sm c) k).1.length = k := by
  refine ⟨List.take_append_drop k _, ?_⟩
  rw [splitPhases, List.length_take, get_month_columns_length]
  omega

/-- Witness for C6 at the source parameters (25-month horizon, split 12):
also the concrete program invariant `phase1_cols ++ phase2_cols = all_months`. -/
theorem splitPhases_append_eq_length_witness :
    (0 < 12 ∧ 12 < 25)
    ∧ ((splitPhases (get_month_columns 2025 7 25) 12).1
          ++ (splitPhases (get_month_columns 2025 7 25) 12).2
        = get_month_columns 2025 7 25
       ∧ (splitPhases (get_month_columns 2025 7 25) 12).1.length = 12) :=
  ⟨by norm_num, splitPhases_append_eq_length 2025 7 25 12 (by norm_num) (by norm_num)⟩

/-- Counterexample to C5 as stated: the source has no ConfigurationError
path at all — the split is plain slicing, which is total.  At split point
0 (≤ 0) it returns normally with a degenerate empty first phase, and at
split point 30 (≥ the 25-month horizon length) it returns normally with
a degenerate empty second phase, instead of aborting initialization. -/
theorem splitPhases_no_abort_on_degenerate :
    splitPhases (get_month_columns 2025 7 25) 0 = ([], get_month_columns 2025 7 25)
    ∧ (splitPhases (get_month_columns 2025 7 25) 30).1 = get_month_columns 2025 7 25
    ∧ (splitPhases (get_month_columns 2025 7 25) 30).2 = [] := by
  refine ⟨rfl, List.take_of_length_le ?_, List.drop_eq_nil_of_le ?_⟩
  · rw [get_month_columns_length]; norm_num
  · rw [get_month_columns_length]; norm_num

/-- C5 (amended): `splitPhases` never fails — the source performs no
validation of the split point.  A split point of 0 yields an empty first
phase and the whole horizon as the second; a split point at or beyond the
horizon length yields the whole horizon as the first phase and an empty
second — in both cases a degenerate phase is produced rather than any
error being raised. -/
theorem splitPhases_total_degenerate (months : List String) (k : Nat) :
    (k = 0 → splitPhases months k = ([], months))
    ∧ (months.length ≤ k →
        (splitPhases months k).1 = months ∧ (splitPhases months k).2 = []) := by
  constructor
  · rintro rfl
    rfl
  · intro hk
    exact ⟨List.take_of_length_le hk, List.drop_eq_nil_of_le hk⟩

/-- Witness for C5 (amended) on the program's 25-month horizon at split
point 30. -/
theorem splitPhases_total_degenerate_witness :
    (splitPhases all_months 30).1 = all_months ∧ (splitPhases all_months 30).2 = [] :=
  (splitPhases_total_degenerate all_months 30).2
    (by rw [all_months, get_month_columns_length]; norm_num)

/-! ## Allocation and deliverables tables (lines 44-63)

`resource_df` has static metadata columns Resource/Role/Grade and one
integer column per MonthKey; `deliverables_df` has one text cell per
MonthKey.  A cell is modelled as `Option` of its value so that a
missing/NaN entry is representable: pandas aggregation skips missing
values and `DataFrame.update` never writes them. -/

structure AllocationTable where
  Resource : List String
  Role : List String
  Grade : List String
  cell : Nat → String → Option Int

/-- Number of rows of the table (the length of the Resource column). -/
def nrows (t : AllocationTable) : Nat := t.Resource.length

structure DeliverablesTable where
  cell : String → Option String

/-- The Streamlit session state: each table is absent (`none`) until its
initialization guard has run. -/
structure SessionState where
  resource_df : Option AllocationTable
  deliverables_df : Option DeliverablesTable

/-- The seeded resource table (lines 46-55): five fixed rows, every
MonthKey column filled with 0. -/
def defaultResourceTable : AllocationTable where
  Resource := ["Sarah Jenkins", "David Chen", "Priya Patel", "Marcus Johnson", "Analyst Pool"]
  Role := ["Partner", "Engagement Mgr", "Senior Associate", "Associate", "Analyst Support"]
  Grade := ["L1", "L3", "L4", "L5", "L6"]
  cell := fun i c => if i < 5 ∧ c ∈ all_months then some 0 else none

/-- The seeded deliverables table (lines 59-63): one row, every MonthKey
column holding the empty string. -/
def defaultDeliverablesTable : DeliverablesTable where
  cell := fun c => if c ∈ all_months then some "" else none

/-- Lines 45-55: `if 'resource_df' not in st.session_state: ...` — the
resource table is created only when absent. -/
def init_resource_df (s : SessionState) : SessionState :=
  match s.resource_df with
  | none => { s with resource_df := some defaultResourceTable }
  | some _ => s

/-- Lines 57-63: the same guard for the deliverables table. -/
def init_deliverables_df (s : SessionState) : SessionState :=
  match s.deliverables_df with
  | none => { s with deliverables_df := some defaultDeliverablesTable }
  | some _ => s

/-! ## Reconciliation (lines 118-124)

`st.session_state.resource_df.update(edited_df[cols])`: the column
selection `edited_df[cols]` restricts the written frame to exactly this
phase's MonthKey columns, and `DataFrame.update` overwrites a stored cell
only where the incoming frame has a non-missing value. -/

/-- An edited grid as returned by the editor: a possibly-missing value
per row index and column label. -/
def EditedGrid := Nat → String → Option Int

/-- `DataFrame.update` cell semantics: a non-missing incoming value
overwrites; a missing (NaN) incoming value leaves the stored cell. -/
def updateCell (old incoming : Option Int) : Option Int :=
  match incoming with
  | some v => some v
  | none => old

theorem updateCell_none (old : Option Int) : updateCell old none = old := rfl

theorem updateCell_some (old : Option Int) (v : Int) : updateCell old (some v) = some v := rfl

/-- `resource_df.update(edited[cols])`: only columns in `cols` can
change, via `updateCell`; metadata columns and all other columns are
untouched. -/
def applyEdits (t : AllocationTable) (cols : List String) (edited : EditedGrid) :
    AllocationTable :=
  { t with cell := fun i c => if c ∈ cols then updateCell (t.cell i c) (edited i c) else t.cell i c }

/-! ## Aggregation (lines 90-91, 129-130, 152-162, 172-175) -/

/-- Line 91, `df_view[cols].sum(axis=1)` at row `i`: the "Phase Total"
display column. -/
def rowPhaseTotal (t : AllocationTable) (cols : List String) (i : Nat) : Int :=
  (cols.map fun c => (t.cell i c).getD 0).sum

/-- One column's sum over all rows (missing cells are skipped by pandas,
i.e. contribute 0). -/
def colSum (t : AllocationTable) (c : String) : Int :=
  ((List.range (nrows t)).map fun i => (t.cell i c).getD 0).sum

/-- Line 130, `totals = st.session_state.resource_df[cols].sum()`:
the per-month totals, one per column of the phase, in phase order. -/
def monthTotals (t : AllocationTable) (cols : List String) : List (String × Int) :=
  cols.map fun c => (c, colSum t c)

/-- Line 156, `total_days_phase = totals.sum()`. -/
def total_days_phase (t : AllocationTable) (cols : List String) : Int :=
  ((monthTotals t cols).map Prod.snd).sum

/-- `Series.idxmax`: the label of the first entry attaining the maximum
value, `none` on an empty series. -/
def idxmaxAux : List (String × Int) → Option (String × Int)
  | [] => none
  | x :: xs =>
    match idxmaxAux xs with
    | none => some x
    | some y => if y.2 > x.2 then some y else some x

/-- Line 157, `busy_month = totals.idxmax()`. -/
def busy_month (t : AllocationTable) (cols : List String) : Option String :=
  (idxmaxAux (monthTotals t cols)).map Prod.fst

/-- `Series.max`: the maximum value of the series, `none` when empty. -/
def seriesMax : List Int → Option Int
  | [] => none
  | x :: xs =>
    match seriesMax xs with
    | none => some x
    | some m => some (max x m)

/-- Line 158, `busy_count = totals.max()`. -/
def busy_count (t : AllocationTable) (cols : List String) : Option Int :=
  seriesMax ((monthTotals t cols).map Prod.snd)

/-- Line 174, `grand_total = st.session_state.resource_df[all_months].sum().sum()`. -/
def grand_total (t : AllocationTable) : Int :=
  total_days_phase t all_months

/-! ## Claim C2: initialization idempotence -/

/-- C2: initialization of both tables is idempotent at session scope —
when a table already exists (whatever values it holds, including
non-default ones reached by edits), re-running its initialization step is
a no-op, and running either initialization twice in sequence equals
running it once. -/
theorem init_idempotent (s : SessionState) (r : AllocationTable) (d : DeliverablesTable) :
    init_resource_df { s with resource_df := some r } = { s with resource_df := some r }
    ∧ init_deliverables_df { s with deliverables_df := some d }
        = { s with deliverables_df := some d }
    ∧ init_resource_df (init_resource_df s) = init_resource_df s
    ∧ init_deliverables_df (init_deliverables_df s) = init_deliverables_df s := by
  obtain ⟨rdf, ddf⟩ := s
  refine ⟨rfl, rfl, ?_, ?_⟩
  · cases rdf <;> rfl
  · cases ddf <;> rfl

/-! ## Claim C1: reconciliation is scoped to the viewed phase -/

/-- Phase 1 and phase 2 column sets are disjoint (the horizon labels are
pairwise distinct, and the two phases split it). -/
theorem phase_cols_disjoint : ∀ c ∈ phase2_cols, c ∉ phase1_cols := by decide

theorem phase_total_not_a_month :
    "Phase Total" ∉ phase1_cols ∧ "Phase Total" ∉ phase2_cols := by decide

/-- C1: reconciling an edited grid while viewing one phase changes only
that phase's MonthKey columns: every cell under a MonthKey of the other
phase keeps its value, every cell outside the viewed phase's columns
keeps its value, the computed "Phase Total" column is never written back
(the result is unchanged under arbitrary replacement of the edited
grid's "Phase Total" values), and metadata is untouched. -/
theorem reconcile_scoped_to_phase (t : AllocationTable) (e : EditedGrid) :
    (∀ i, ∀ c ∈ phase2_cols, (applyEdits t phase1_cols e).cell i c = t.cell i c)
    ∧ (∀ i, ∀ c ∈ phase1_cols, (applyEdits t phase2_cols e).cell i c = t.cell i c)
    ∧ (∀ i c, c ∉ phase1_cols → (applyEdits t phase1_cols e).cell i c = t.cell i c)
    ∧ (∀ i c, c ∉ phase2_cols → (applyEdits t phase2_cols e).cell i c = t.cell i c)
    ∧ (∀ v : Nat → Option Int, ∀ i c,
        (applyEdits t phase1_cols
            (fun j c2 => if c2 = "Phase Total" then v j else e j c2)).cell i c
          = (applyEdits t phase1_cols e).cell i c)
    ∧ (∀ v : Nat → Option Int, ∀ i c,
        (applyEdits t phase2_cols
            (fun j c2 => if c2 = "Phase Total" then v j else e j c2)).cell i c
          = (applyEdits t phase2_cols e).cell i c)
    ∧ (applyEdits t phase1_cols e).Resource = t.Resource
    ∧ (applyEdits t phase1_cols e).Role = t.Role
    ∧ (applyEdits t phase1_cols e).Grade = t.Grade := by
  refine ⟨?_, ?_, ?_, ?_, ?_, ?_, rfl, rfl, rfl⟩
  · intro i c hc
    simp only [applyEdits]
    rw [if_neg (phase_cols_disjoint c hc)]
  · intro i c hc
    simp only [applyEdits]
    rw [if_neg fun h => phase_cols_disjoint _ h hc]
  · intro i c hc
    simp only [applyEdits]
    rw [if_neg hc]
  · intro i c hc
    simp only [applyEdits]
    rw [if_neg hc]
  · intro v i c
    simp only [applyEdits]
    by_cases hc : c ∈ phase1_cols
    · rw [if_pos hc, if_pos hc, if_neg (fun h : c = "Phase Total" =>
        phase_total_not_a_month.1 (h ▸ hc))]
    · rw [if_neg hc, if_neg hc]
  · intro v i c
    simp only [applyEdits]
    by_cases hc : c ∈ phase2_cols
    · rw [if_pos hc, if_pos hc, if_neg (fun h : c = "Phase Total" =>
        phase_total_not_a_month.2 (h ▸ hc))]
    · rw [if_neg hc, if_neg hc]

/-- Witness for C1: on the seeded table, a phase-1 edit leaves a phase-2
cell (Jul '26) untouched. -/
theorem reconcile_scoped_to_phase_witness :
    (applyEdits defaultResourceTable phase1_cols (fun i c =>
        if i = 0 ∧ c = "Jul '25" then some 10 else none)).cell 0 "Jul '26"
      = defaultResourceTable.cell 0 "Jul '26" :=
  (reconcile_scoped_to_phase defaultResourceTable _).1 0 "Jul '26" (by decide)

/-! ## Claim C3: per-cell validation of edits

The source has no validation at all: reconciliation is
`resource_df.update(edited_df[cols])`, which writes every non-missing
edited value verbatim — a negative number included.  Only a missing
(NaN) edited cell is skipped, retaining the prior value. -/

/-- An edited grid that puts the negative value -5 into row 0 of
column Jul '25. -/
def negativeEdit : EditedGrid := fun i c =>
  if i = 0 ∧ c = "Jul '25" then some (-5) else none

/-- Counterexample to C3 as stated: the claim says a negative cell edit
is rejected and the cell retains its prior value; but reconciling a grid
holding -5 for (row 0, Jul '25) overwrites the prior value 0 with -5. -/
theorem negative_edit_written_back :
    defaultResourceTable.cell 0 "Jul '25" = some 0
    ∧ (applyEdits defaultResourceTable phase1_cols negativeEdit).cell 0 "Jul '25"
        = some (-5) := by
  constructor
  · decide
  · decide

/-- C3 (amended): reconciliation applies every non-missing edited value
verbatim — negative values are NOT rejected, there being no validation in
the source — while a missing (cleared) cell is skipped so that cell
retains its prior value; the other edits of the batch are still applied
independently, and reconciliation is a total function, so no fault is
raised. -/
theorem reconcile_applies_values_verbatim (t : AllocationTable) (cols : List String)
    (e : EditedGrid) :
    (∀ i c, c ∈ cols → ∀ v : Int, e i c = some v → (applyEdits t cols e).cell i c = some v)
    ∧ (∀ i c, c ∈ cols → e i c = none → (applyEdits t cols e).cell i c = t.cell i c) := by
  constructor
  · intro i c hc v hv
    simp only [applyEdits]
    rw [if_pos hc, hv]
    rfl
  · intro i c hc hv
    simp only [applyEdits]
    rw [if_pos hc, hv]
    rfl

/-- Witness for C3 (amended): the negative edit is applied verbatim while
an untouched (missing) cell of the same batch keeps its prior value. -/
theorem reconcile_applies_values_verbatim_witness :
    (applyEdits defaultResourceTable phase1_cols negativeEdit).cell 0 "Jul '25" = some (-5)
    ∧ (applyEdits defaultResourceTable phase1_cols negativeEdit).cell 1 "Jul '25"
        = defaultResourceTable.cell 1 "Jul '25" :=
  ⟨(reconcile_applies_values_verbatim defaultResourceTable phase1_cols negativeEdit).1
      0 "Jul '25" (by decide) (-5) (by decide),
   (reconcile_applies_values_verbatim defaultResourceTable phase1_cols negativeEdit).2
      1 "Jul '25" (by decide) (by decide)⟩

/-! ## Claim C10: the no-missing-cell invariant -/

/-- Every MonthKey cell of every row of the table holds a concrete value. -/
def allCellsPresent (t : AllocationTable) : Prop :=
  ∀ i, i < nrows t → ∀ c ∈ all_months, (t.cell i c).isSome

/-- C10: initialization fills every MonthKey cell of every row with 0;
reconciliation preserves the no-missing-cell invariant, because
`DataFrame.update` skips missing entries of the edited grid — in
particular a cell the user cleared (a missing edited value) retains its
prior stored value. -/
theorem no_missing_cells_invariant (t : AllocationTable) (cols : List String)
    (e : EditedGrid) :
    (∀ i, i < nrows defaultResourceTable → ∀ c ∈ all_months,
        defaultResourceTable.cell i c = some 0)
    ∧ (allCellsPresent t → allCellsPresent (applyEdits t cols e))
    ∧ (∀ i c, e i c = none → (applyEdits t cols e).cell i c = t.cell i c) := by
  refine ⟨?_, ?_, ?_⟩
  · intro i hi c hc
    simp only [defaultResourceTable]
    rw [if_pos ⟨hi, hc⟩]
  · intro h i hi c hc
    simp only [applyEdits, nrows] at hi ⊢
    by_cases hmem : c ∈ cols
    · rw [if_pos hmem]
      cases hv : e i c with
      | none => rw [updateCell_none]; exact h i hi c hc
      | some v => rw [updateCell_some]; rfl
    · rw [if_neg hmem]
      exact h i hi c hc
  · intro i c hv
    simp only [applyEdits]
    by_cases hmem : c ∈ cols
    · rw [if_pos hmem, hv]
      rfl
    · rw [if_neg hmem]

/-- Witness for C10 on the seeded table: the fresh cell holds 0, and
reconciling a grid whose cells are all missing leaves a cell unchanged. -/
theorem no_missing_cells_invariant_witness :
    defaultResourceTable.cell 0 "Jul '25" = some 0
    ∧ (applyEdits defaultResourceTable phase1_cols (fun _ _ => none)).cell 0 "Jul '25"
        = defaultResourceTable.cell 0 "Jul '25" :=
  ⟨(no_missing_cells_invariant defaultResourceTable phase1_cols (fun _ _ => none)).1
      0 (by decide) "Jul '25" (by decide),
   (no_missing_cells_invariant defaultResourceTable phase1_cols (fun _ _ => none)).2.2
      0 "Jul '25" rfl⟩

/-! ## Claim C7: the phase total is the same under every summation order -/

theorem rowPhaseTotal_cons (t : AllocationTable) (c : String) (cs : List String) (i : Nat) :
    rowPhaseTotal t (c :: cs) i = (t.cell i c).getD 0 + rowPhaseTotal t cs i := by
  simp [rowPhaseTotal]

/-- Interchange of the two summation orders: summing the per-month column
sums equals summing the per-row phase totals. -/
theorem sum_colSums_eq_sum_rowTotals (t : AllocationTable) (cols : List String) :
    (cols.map (colSum t)).sum = ((List.range (nrows t)).map (rowPhaseTotal t cols)).sum := by
  induction cols with
  | nil =>
    have h0 : rowPhaseTotal t [] = fun _ => (0 : Int) := by
      funext i
      simp [rowPhaseTotal]
    simp [h0]
  | cons c cs ih =>
    simp only [List.map_cons, List.sum_cons, ih]
    have : (List.range (nrows t)).map (rowPhaseTotal t (c :: cs))
        = (List.range (nrows t)).map (fun i => (t.cell i c).getD 0 + rowPhaseTotal t cs i) := by
      simp [rowPhaseTotal_cons]
    rw [this, List.sum_map_add]
    rfl

/-- C7: the phase total computed as the sum of the per-month column sums
equals the sum of all cells of the table restricted to the phase columns
(row-major flattening), and equals the sum of the per-row "Phase Total"
values — the two summation orders give identical results. -/
theorem phase_total_summation_orders (t : AllocationTable) (cols : List String) :
    total_days_phase t cols = (cols.map (colSum t)).sum
    ∧ total_days_phase t cols
        = ((List.range (nrows t)).map (rowPhaseTotal t cols)).sum
    ∧ total_days_phase t cols
        = (((List.range (nrows t)).map
              (fun i => cols.map fun c => (t.cell i c).getD 0)).flatten).sum := by
  have h1 : total_days_phase t cols = (cols.map (colSum t)).sum := by
    simp only [total_days_phase, monthTotals, List.map_map]
    rfl
  refine ⟨h1, h1.trans (sum_colSums_eq_sum_rowTotals t cols), ?_⟩
  rw [h1, sum_colSums_eq_sum_rowTotals t cols, List.sum_flatten, List.map_map]
  rfl

/-! ## Claim C9: the grand total splits over the two phases -/

theorem total_days_phase_append (t : AllocationTable) (a b : List String) :
    total_days_phase t (a ++ b) = total_days_phase t a + total_days_phase t b := by
  simp [total_days_phase, monthTotals, List.map_append]

/-- C9: the grand total over the entire horizon equals the Phase 1 total
plus the Phase 2 total. -/
theorem grand_total_eq_phase_totals (t : AllocationTable) :
    grand_total t = total_days_phase t phase1_cols + total_days_phase t phase2_cols := by
  have h : all_months = phase1_cols ++ phase2_cols := (List.take_append_drop 12 all_months).symm
  rw [grand_total, h, total_days_phase_append]

/-! ## Claim C8: the peak month is the first month attaining the maximum -/

theorem idxmaxAux_cons_none {a : String × Int} {as : List (String × Int)}
    (h : idxmaxAux as = none) : idxmaxAux (a :: as) = some a := by
  simp [idxmaxAux, h]

theorem idxmaxAux_cons_some {a y : String × Int} {as : List (String × Int)}
    (h : idxmaxAux as = some y) :
    idxmaxAux (a :: as) = if y.2 > a.2 then some y else some a := by
  simp [idxmaxAux, h]

theorem idxmaxAux_none : ∀ {l : List (String × Int)}, idxmaxAux l = none → l = []
  | [], _ => rfl
  | a :: as, h => by
    cases hr : idxmaxAux as with
    | none => rw [idxmaxAux_cons_none hr] at h; simp at h
    | some y => rw [idxmaxAux_cons_some hr] at h; split at h <;> simp at h

theorem idxmaxAux_isSome (l : List (String × Int)) (h : l ≠ []) :
    ∃ x, idxmaxAux l = some x := by
  cases hr : idxmaxAux l with
  | none => exact absurd (idxmaxAux_none hr) h
  | some x => exact ⟨x, rfl⟩

/-- The entry returned by `idxmaxAux` attains the maximum value, and
everything strictly before it in the list is strictly below it (it is the
FIRST entry attaining the maximum). -/
theorem idxmaxAux_spec (l : List (String × Int)) (x : String × Int)
    (h : idxmaxAux l = some x) :
    (∀ z ∈ l, z.2 ≤ x.2)
    ∧ ∃ l1 l2, l = l1 ++ x :: l2 ∧ ∀ z ∈ l1, z.2 < x.2 := by
  induction l generalizing x with
  | nil => simp [idxmaxAux] at h
  | cons a as ih =>
    cases hr : idxmaxAux as with
    | none =>
      rw [idxmaxAux_cons_none hr] at h
      have has : as = [] := idxmaxAux_none hr
      simp only [Option.some.injEq] at h
      subst h
      subst has
      exact ⟨by simp, [], [], rfl, by simp⟩
    | some y =>
      rw [idxmaxAux_cons_some hr] at h
      obtain ⟨hmax, l1, l2, hdec, hpre⟩ := ih y hr
      by_cases hy : y.2 > a.2
      · rw [if_pos hy] at h
        simp only [Option.some.injEq] at h
        subst h
        refine ⟨?_, a :: l1, l2, by rw [hdec]; rfl, ?_⟩
        · intro z hz
          rcases List.mem_cons.mp hz with hz | hz
          · subst hz; exact le_of_lt hy
          · exact hmax z hz
        · intro z hz
          rcases List.mem_cons.mp hz with hz | hz
          · subst hz; exact hy
          · exact hpre z hz
      · rw [if_neg hy] at h
        simp only [Option.some.injEq] at h
        subst h
        refine ⟨?_, [], as, rfl, by simp⟩
        intro z hz
        rcases List.mem_cons.mp hz with hz | hz
        · subst hz
          exact le_refl _
        · exact le_trans (hmax z hz) (not_lt.mp hy)

/-- The value of the `idxmaxAux` entry is exactly the series maximum. -/
theorem idxmaxAux_seriesMax (l : List (String × Int)) (x : String × Int)
    (h : idxmaxAux l = some x) : seriesMax (l.map Prod.snd) = some x.2 := by
  induction l generalizing x with
  | nil => simp [idxmaxAux] at h
  | cons a as ih =>
    cases hr : idxmaxAux as with
    | none =>
      rw [idxmaxAux_cons_none hr] at h
      have has : as = [] := idxmaxAux_none hr
      simp only [Option.some.injEq] at h
      subst h
      subst has
      rfl
    | some y =>
      rw [idxmaxAux_cons_some hr] at h
      have hs := ih y hr
      simp only [List.map_cons, seriesMax, hs]
      by_cases hy : y.2 > a.2
      · rw [if_pos hy] at h
        simp only [Option.some.injEq] at h
        subst h
        rw [max_eq_right (le_of_lt hy)]
      · rw [if_neg hy] at h
        simp only [Option.some.injEq] at h
        subst h
        rw [max_eq_left (not_lt.mp hy)]

/-- C8: for a nonempty phase window, the reported peak month is a month
whose per-month sum is maximal over the phase's months; when several
months tie, the one occurring earliest in the phase's chronological
column order is reported (everything before it in `monthTotals` is
strictly smaller), and the reported day count is that maximal sum. -/
theorem peak_month_first_max (t : AllocationTable) (cols : List String) (h : cols ≠ []) :
    ∃ c v l1 l2,
      busy_month t cols = some c
      ∧ busy_count t cols = some v
      ∧ monthTotals t cols = l1 ++ (c, v) :: l2
      ∧ (∀ z ∈ l1, z.2 < v)
      ∧ (∀ z ∈ monthTotals t cols, z.2 ≤ v) := by
  have hne : monthTotals t cols ≠ [] := by
    simp [monthTotals, h]
  obtain ⟨x, hx⟩ := idxmaxAux_isSome _ hne
  obtain ⟨hmax, l1, l2, hdec, hpre⟩ := idxmaxAux_spec _ x hx
  refine ⟨x.1, x.2, l1, l2, ?_, ?_, ?_, hpre, hmax⟩
  · simp [busy_month, hx]
  · simp [busy_count, idxmaxAux_seriesMax _ x hx]
  · exact hdec

/-- Witness for C8 on the seeded (all-zero) table and Phase 1: the peak
month is Jul '25 (the chronologically first of the tied months). -/
theorem peak_month_first_max_witness :
    phase1_cols ≠ []
    ∧ ∃ c v l1 l2,
        busy_month defaultResourceTable phase1_cols = some c
        ∧ busy_count defaultResourceTable phase1_cols = some v
        ∧ monthTotals defaultResourceTable phase1_cols = l1 ++ (c, v) :: l2
        ∧ (∀ z ∈ l1, z.2 < v)
        ∧ (∀ z ∈ monthTotals defaultResourceTable phase1_cols, z.2 ≤ v) :=
  ⟨by decide, peak_month_first_max defaultResourceTable phase1_cols (by decide)⟩
